import Mathlib

/-!
Shallow embedding of the portal file-transfer core (src/core/src):
the request/response message model and frame codec (codec.rs), the
receiver ("slave") fragment-reassembly state machine (slave.rs), and
the sender ("master") chunked send loop (master.rs).

Bytes are modelled as `Nat` (with explicit `< 256` bounds where the
u8 range matters).  Rust `String` fields (`file_name`, `sha256`) are
modelled as their byte lists.  The external sha256 digest is an
abstract function parameter.  Filesystem success/failure of
`File::create` / `write_all` is an oracle parameter.
-/

namespace Portal

/-- One accumulated fragment: `(index, data)`, as stored in
`Slave.file_pool` (slave.rs line 27). -/
abbrev Frag := Nat × List Nat

/-- `MasterRequest` from codec.rs lines 9-38. -/
inductive MasterRequest
  | ping
  | fileFragment (file_id : Nat) (index : Nat) (data : List Nat)
  | fileMetadata (file_id : Nat) (file_name : List Nat) (sha256 : List Nat)
  | endOfFile (file_id : Nat)
  | dropFile (file_id : Nat)
deriving DecidableEq

/-- `SlaveResponse` from codec.rs lines 40-52. -/
inductive SlaveResponse
  | pong
  | ok
  | fileIdNotFound (file_id : Nat)
  | cannotSaveFile (file_id : Nat)
  | checksumNotMatched (file_id : Nat)
deriving DecidableEq

/-- `Metadata` from slave.rs lines 32-36 (both Rust strings modelled as
byte lists). -/
structure Metadata where
  file_name : List Nat
  sha256 : List Nat
deriving DecidableEq

/-- The two `HashMap`s owned by `Slave` (slave.rs lines 27-29),
modelled as functions to `Option`. -/
structure SlaveState where
  file_pool : Nat → Option (List Frag)
  file_metadata : Nat → Option Metadata

/-- `HashMap::insert`. -/
def mapInsert {α : Type} (m : Nat → Option α) (k : Nat) (v : α) : Nat → Option α :=
  fun q => if q = k then some v else m q

/-- `HashMap::remove` (the removed value is recovered by reading `m k`
at the call site). -/
def mapRemove {α : Type} (m : Nat → Option α) (k : Nat) : Nat → Option α :=
  fun q => if q = k then none else m q

/-- The comparator of slave.rs line 101: `|a, b| a.0.cmp(&b.0)`. -/
def fragLe (a b : Frag) : Prop := a.1 ≤ b.1

/-- Strict ordering on fragment indices (used to state uniqueness of
the sorted order when indices are pairwise distinct). -/
def fragLt (a b : Frag) : Prop := a.1 < b.1

instance : DecidableRel fragLe := fun a b => Nat.decLe a.1 b.1

instance : IsTotal Frag fragLe := ⟨fun a b => Nat.le_total a.1 b.1⟩

instance : IsTrans Frag fragLe := ⟨fun _ _ _ h h' => Nat.le_trans h h'⟩

/-- Sorting of slave.rs line 101.  Rust's `sort_by` is a stable sort by
the comparator; `List.insertionSort` is stable for the same ordering,
and any two stable sorts of the same list by the same key agree. -/
def sortFrags (l : List Frag) : List Frag := List.insertionSort fragLe l

/-- Reassembly at slave.rs lines 100-108: sort by index, then
concatenate the data fields (`flat_map`). -/
def reassemble (l : List Frag) : List Nat :=
  ((sortFrags l).map Prod.snd).flatten

/-- Oracle for the two fallible filesystem calls in the `EndOfFile` arm
(slave.rs lines 120, 126): `File::create` and `write_all`. -/
structure FsOracle where
  createOk : Bool
  writeOk : Bool
deriving DecidableEq

/-- Observable outcome of one `Slave::handle_request` call: the
successor state, the response, whether `File::create` was called, and
the bytes fully written to the output file (if any). -/
structure StepResult where
  state : SlaveState
  response : SlaveResponse
  createAttempted : Bool
  written : Option (List Nat)

/-- `Slave::handle_request` (slave.rs lines 53-139), with the sha256
digest of a byte sequence abstracted as `digest` and filesystem
success abstracted as `fs`. -/
def handle_request (digest : List Nat → List Nat) (fs : FsOracle)
    (st : SlaveState) (req : MasterRequest) : StepResult :=
  match req with
  | .ping => ⟨st, .pong, false, none⟩
  | .fileFragment fid idx data =>
    match st.file_pool fid with
    | some file =>
      ⟨⟨mapInsert st.file_pool fid (file ++ [(idx, data)]), st.file_metadata⟩, .ok, false, none⟩
    | none => ⟨st, .fileIdNotFound fid, false, none⟩
  | .fileMetadata fid name sha =>
    ⟨⟨mapInsert st.file_pool fid [], mapInsert st.file_metadata fid ⟨name, sha⟩⟩, .ok, false, none⟩
  | .endOfFile fid =>
    let st' : SlaveState := ⟨mapRemove st.file_pool fid, mapRemove st.file_metadata fid⟩
    match st.file_metadata fid with
    | none => ⟨st', .fileIdNotFound fid, false, none⟩
    | some md =>
      match st.file_pool fid with
      | none => ⟨st', .fileIdNotFound fid, false, none⟩
      | some file =>
        let content := reassemble file
        let recv := digest content
        if md.sha256 ≠ recv then ⟨st', .checksumNotMatched fid, false, none⟩
        else if fs.createOk = false then ⟨st', .cannotSaveFile fid, true, none⟩
        else if fs.writeOk = false then ⟨st', .cannotSaveFile fid, true, none⟩
        else ⟨st', .ok, true, some content⟩
  | .dropFile fid =>
    ⟨⟨mapRemove st.file_pool fid, st.file_metadata⟩, .ok, false, none⟩

/-- Feed a list of fragments for one `file_id` through the handler, in
arrival order, keeping only the evolving state. -/
def feedFrags (digest : List Nat → List Nat) (fs : FsOracle) (fid : Nat)
    (st : SlaveState) (frags : List Frag) : SlaveState :=
  frags.foldl (fun s fr => (handle_request digest fs s (.fileFragment fid fr.1 fr.2)).state) st

/-- The state with no transfers. -/
def emptyState : SlaveState := ⟨fun _ => none, fun _ => none⟩

/-! ## Frame codec (codec.rs)

`bincode::serialize` with bincode 1.x's legacy configuration:
fixed-width little-endian integers, enum variant tags as `u32`,
`Vec<u8>`/`String` as a `u64` length followed by the raw bytes.
The 2-byte frame length header is written big-endian by
`BytesMut::put_u16` and read back by `utils::u8_array_to_u16`. -/

/-- The `MAX_CONTENT_SIZE` constant of codec.rs line 103. -/
def MAX_CONTENT_SIZE : Nat := 1498

/-- The `MAX_FILE_FARGMENT_SIZE` constant of codec.rs line 105. -/
def MAX_FILE_FARGMENT_SIZE : Nat := 1477

/-- The codec error cases reachable from `RequestCodec` (error.rs):
`DataTooLarge` at encode time, a bincode error at decode time. -/
inductive CodecError
  | dataTooLarge
  | deserializeFailed
deriving DecidableEq

/-- `utils::u8_array_to_u16`: big-endian read of the 2-byte header. -/
def u8_array_to_u16 (a b : Nat) : Nat := a * 256 + b

/-- `BytesMut::put_u16`: big-endian bytes of `n` as `u16` (codec.rs
line 141 truncates `data_len as u16`; all reachable values fit). -/
def u16be (n : Nat) : List Nat := [n / 256 % 256, n % 256]

/-- Little-endian 4-byte encoding of a `u32` (bincode fixint). -/
def u32le (n : Nat) : List Nat :=
  [n % 256, n / 256 % 256, n / 65536 % 256, n / 16777216 % 256]

/-- Little-endian 8-byte encoding of a `u64` (bincode fixint). -/
def u64le (n : Nat) : List Nat :=
  [n % 256, n / 256 % 256, n / 65536 % 256, n / 16777216 % 256,
   n / 4294967296 % 256, n / 1099511627776 % 256,
   n / 281474976710656 % 256, n / 72057594037927936 % 256]

/-- `bincode::serialize` of a `MasterRequest` (legacy format: u32
variant tag, u8 `file_id`, u32 `index`, u64-length-prefixed byte
sequences). -/
def serializeRequest : MasterRequest → List Nat
  | .ping => u32le 0
  | .fileFragment fid idx data => u32le 1 ++ [fid] ++ u32le idx ++ u64le data.length ++ data
  | .fileMetadata fid name sha =>
    u32le 2 ++ [fid] ++ u64le name.length ++ name ++ u64le sha.length ++ sha
  | .endOfFile fid => u32le 3 ++ [fid]
  | .dropFile fid => u32le 4 ++ [fid]

/-- `RequestCodec::encode` (codec.rs lines 127-145): reject content
above `MAX_CONTENT_SIZE` with `DataTooLarge` before touching `dst`,
otherwise append the big-endian total length (2 + content) and the
serialized content. -/
def encodeRequest (item : MasterRequest) (dst : List Nat) : Except CodecError (List Nat) :=
  let data := serializeRequest item
  if data.length > MAX_CONTENT_SIZE then .error .dataTooLarge
  else .ok (dst ++ u16be (2 + data.length) ++ data)

/-- Read one byte (bincode u8 field). -/
def readU8 : List Nat → Option (Nat × List Nat)
  | [] => none
  | a :: rest => some (a, rest)

/-- Read a little-endian u32. -/
def readU32le : List Nat → Option (Nat × List Nat)
  | a :: b :: c :: d :: rest =>
    some (a + 256 * b + 65536 * c + 16777216 * d, rest)
  | _ => none

/-- Read a little-endian u64. -/
def readU64le : List Nat → Option (Nat × List Nat)
  | a :: b :: c :: d :: e :: f :: g :: h :: rest =>
    some (a + 256 * b + 65536 * c + 16777216 * d + 4294967296 * e
      + 1099511627776 * f + 281474976710656 * g + 72057594037927936 * h, rest)
  | _ => none

/-- Read exactly `k` raw bytes. -/
def readBytes (k : Nat) (l : List Nat) : Option (List Nat × List Nat) :=
  if k ≤ l.length then some (l.take k, l.drop k) else none

/-- `bincode::deserialize::<MasterRequest>` (legacy format; trailing
bytes are permitted and ignored, as by `bincode::deserialize`). -/
def deserializeRequest (l : List Nat) : Option MasterRequest :=
  match readU32le l with
  | none => none
  | some (tag, r1) =>
    if tag = 0 then some .ping
    else if tag = 1 then
      match readU8 r1 with
      | none => none
      | some (fid, r2) =>
        match readU32le r2 with
        | none => none
        | some (idx, r3) =>
          match readU64le r3 with
          | none => none
          | some (len, r4) =>
            match readBytes len r4 with
            | none => none
            | some (data, _) => some (.fileFragment fid idx data)
    else if tag = 2 then
      match readU8 r1 with
      | none => none
      | some (fid, r2) =>
        match readU64le r2 with
        | none => none
        | some (nlen, r3) =>
          match readBytes nlen r3 with
          | none => none
          | some (name, r4) =>
            match readU64le r4 with
            | none => none
            | some (slen, r5) =>
              match readBytes slen r5 with
              | none => none
              | some (sha, _) => some (.fileMetadata fid name sha)
    else if tag = 3 then
      match readU8 r1 with
      | none => none
      | some (fid, _) => some (.endOfFile fid)
    else if tag = 4 then
      match readU8 r1 with
      | none => none
      | some (fid, _) => some (.dropFile fid)
    else none

/-- `RequestCodec::decode` (codec.rs lines 169-189): with fewer than 2
buffered bytes, or fewer than the declared `total_length`, report
"need more" (`Ok(None)`) leaving the buffer untouched; otherwise split
off exactly `total_length` bytes, deserialize everything after the
2-byte header, and return the message together with the bytes left in
the buffer. -/
def decodeRequest (src : List Nat) : Except CodecError (Option (MasterRequest × List Nat)) :=
  match src with
  | a :: b :: _ =>
    let total := u8_array_to_u16 a b
    if src.length < total then .ok none
    else
      match deserializeRequest ((src.take total).drop 2) with
      | none => .error .deserializeFailed
      | some request => .ok (some (request, src.drop total))
  | _ => .ok none

/-- Field bounds that hold of every `MasterRequest` value in the Rust
program: `file_id : u8`, `index : u32`, data bytes are `u8`, byte
sequence lengths fit in `u64`. -/
def WFRequest : MasterRequest → Prop
  | .ping => True
  | .fileFragment fid idx data =>
    fid < 256 ∧ idx < 4294967296 ∧ data.length < 18446744073709551616 ∧ ∀ x ∈ data, x < 256
  | .fileMetadata fid name sha =>
    fid < 256 ∧ name.length < 18446744073709551616 ∧ sha.length < 18446744073709551616 ∧
      (∀ x ∈ name, x < 256) ∧ ∀ x ∈ sha, x < 256
  | .endOfFile fid => fid < 256
  | .dropFile fid => fid < 256

/-! ## Sender engine (master.rs)

`Master::do_send_a_file` (master.rs lines 106-220), restricted to the
send loop after `FileMetadata` has been built.  The file is a byte
list; `file.read(&mut buf)` is modelled by an adversarial plan giving
the number of bytes the OS offers at the t-th read, capped by the
1477-byte buffer and by the bytes remaining; `rx.try_recv()` is
modelled by a poll stream.  Network sends cannot fail in the model, so
every terminating path corresponds to the Rust function returning
`Ok`; running out of fuel (`none`) covers only non-termination (an
everlasting `Paused` status). -/

/-- `TaskStatus` from master.rs lines 22-26. -/
inductive TaskStatus
  | running
  | paused
  | aborted
deriving DecidableEq

/-- Outcome of one `rx.try_recv()` call (master.rs line 153). -/
inductive PollRes
  | got (s : TaskStatus)
  | empty
  | disconnected
deriving DecidableEq

/-- The status update of master.rs lines 153-164: a received value
replaces the status, `Empty` keeps it, `Disconnected` (no sender left)
is reported as `none`. -/
def pollUpdate (pr : PollRes) (status : TaskStatus) : Option TaskStatus :=
  match pr with
  | .got s => some s
  | .empty => some status
  | .disconnected => none

/-- The `while read_bytes < file_length` loop of master.rs lines
151-212 followed by the `EndOfFile` send of lines 215-216, returning
the requests sent from this point on.  Arguments after the plan:
fuel, `read_bytes`, `fragment_index`, `status`, iteration counter. -/
def masterLoop (fid : Nat) (file : List Nat) (poll : Nat → PollRes) (plan : Nat → Nat) :
    Nat → Nat → Nat → TaskStatus → Nat → Option (List MasterRequest)
  | 0, _, _, _, _ => none
  | fuel + 1, rb, idx, status, t =>
    if rb < file.length then
      match pollUpdate (poll t) status with
      | none => some [.dropFile fid]
      | some .aborted => some [.dropFile fid]
      | some .paused => masterLoop fid file poll plan fuel rb idx .paused (t + 1)
      | some .running =>
        let chunk := (file.drop rb).take (min (plan t) MAX_FILE_FARGMENT_SIZE)
        if chunk.length = 0 then some [.endOfFile fid]
        else
          Option.map (fun rest => .fileFragment fid idx chunk :: rest)
            (masterLoop fid file poll plan fuel (rb + chunk.length) (idx + 1) .running (t + 1))
    else some [.endOfFile fid]

/-- The chunks read by an uninterrupted run of the loop, starting at
offset `rb` and read call `t`. -/
def chunksFrom (file : List Nat) (plan : Nat → Nat) :
    Nat → Nat → Nat → List (List Nat)
  | 0, _, _ => []
  | fuel + 1, rb, t =>
    if rb < file.length then
      let chunk := (file.drop rb).take (min (plan t) MAX_FILE_FARGMENT_SIZE)
      if chunk.length = 0 then []
      else chunk :: chunksFrom file plan fuel (rb + chunk.length) (t + 1)
    else []

/-- The fragment requests for a chunk list, with indices counting up
from `idx` (master.rs lines 202-210). -/
def fragsOf (fid : Nat) : Nat → List (List Nat) → List MasterRequest
  | _, [] => []
  | idx, c :: cs => .fileFragment fid idx c :: fragsOf fid (idx + 1) cs

/-- The request trace of `Master::do_send_a_file` after the file has
been opened and hashed: `FileMetadata` first (master.rs lines
133-139), then the send loop. -/
def sendAFileTrace (fid : Nat) (name sha : List Nat) (file : List Nat)
    (poll : Nat → PollRes) (plan : Nat → Nat) (fuel : Nat) : Option (List MasterRequest) :=
  Option.map (fun msgs => .fileMetadata fid name sha :: msgs)
    (masterLoop fid file poll plan fuel 0 0 .running 0)

/-! ## Helper lemmas -/

theorem mapInsert_self {α : Type} (m : Nat → Option α) (k : Nat) (v : α) :
    mapInsert m k v k = some v := by
  simp [mapInsert]

theorem mapInsert_other {α : Type} (m : Nat → Option α) (k q : Nat) (v : α) (h : q ≠ k) :
    mapInsert m k v q = m q := by
  simp [mapInsert, h]

theorem mapRemove_self {α : Type} (m : Nat → Option α) (k : Nat) :
    mapRemove m k k = none := by
  simp [mapRemove]

theorem mapRemove_other {α : Type} (m : Nat → Option α) (k q : Nat) (h : q ≠ k) :
    mapRemove m k q = m q := by
  simp [mapRemove, h]

/-- Full characterization of the `EndOfFile` arm when both maps hold
an entry for `file_id`. -/
theorem endOfFile_run (digest : List Nat → List Nat) (fs : FsOracle) (st : SlaveState)
    (fid : Nat) (md : Metadata) (file : List Frag)
    (hm : st.file_metadata fid = some md) (hp : st.file_pool fid = some file) :
    handle_request digest fs st (.endOfFile fid) =
      ⟨⟨mapRemove st.file_pool fid, mapRemove st.file_metadata fid⟩,
       if md.sha256 ≠ digest (reassemble file) then .checksumNotMatched fid
       else if fs.createOk = false then .cannotSaveFile fid
       else if fs.writeOk = false then .cannotSaveFile fid
       else .ok,
       if md.sha256 ≠ digest (reassemble file) then false else true,
       if md.sha256 ≠ digest (reassemble file) then none
       else if fs.createOk = false then none
       else if fs.writeOk = false then none
       else some (reassemble file)⟩ := by
  simp only [handle_request, hm, hp]
  split_ifs <;> rfl

/-- Processing fragments appends them, in arrival order, to the pool
entry of their `file_id`. -/
theorem feedFrags_pool (digest : List Nat → List Nat) (fs : FsOracle) (fid : Nat) :
    ∀ (frags : List Frag) (st : SlaveState) (acc : List Frag),
      st.file_pool fid = some acc →
      (feedFrags digest fs fid st frags).file_pool fid = some (acc ++ frags)
  | [], st, acc, h => by simpa [feedFrags] using h
  | fr :: rest, st, acc, h => by
    have hstep :
        (handle_request digest fs st (.fileFragment fid fr.1 fr.2)).state.file_pool fid
          = some (acc ++ [fr]) := by
      simp only [handle_request, h]
      simp [mapInsert_self]
    have hrec := feedFrags_pool digest fs fid rest
      (handle_request digest fs st (.fileFragment fid fr.1 fr.2)).state (acc ++ [fr]) hstep
    simpa [feedFrags, List.foldl_cons, List.append_assoc] using hrec

/-- Processing fragments never touches the metadata map. -/
theorem feedFrags_metadata (digest : List Nat → List Nat) (fs : FsOracle) (fid : Nat) :
    ∀ (frags : List Frag) (st : SlaveState),
      (feedFrags digest fs fid st frags).file_metadata = st.file_metadata
  | [], _ => rfl
  | fr :: rest, st => by
    have hstep :
        (handle_request digest fs st (.fileFragment fid fr.1 fr.2)).state.file_metadata
          = st.file_metadata := by
      simp only [handle_request]
      cases st.file_pool fid <;> rfl
    have hrec := feedFrags_metadata digest fs fid rest
      (handle_request digest fs st (.fileFragment fid fr.1 fr.2)).state
    simpa [feedFrags, List.foldl_cons, hstep] using hrec

/-- With pairwise-distinct indices, any two permutations of the same
fragments sort to the same list. -/
theorem sortFrags_eq_of_perm (l1 l2 : List Frag) (hp : l1.Perm l2)
    (hd : l1.Pairwise (fun a b => a.1 ≠ b.1)) : sortFrags l1 = sortFrags l2 := by
  have p1 := List.perm_insertionSort fragLe l1
  have p2 := List.perm_insertionSort fragLe l2
  have hperm : (sortFrags l1).Perm (sortFrags l2) := p1.trans (hp.trans p2.symm)
  have hs1 : (sortFrags l1).Pairwise fragLe := List.sorted_insertionSort fragLe l1
  have hs2 : (sortFrags l2).Pairwise fragLe := List.sorted_insertionSort fragLe l2
  have hsymm : ∀ {x y : Frag}, x.1 ≠ y.1 → y.1 ≠ x.1 := fun h => h.symm
  have hd1 : (sortFrags l1).Pairwise (fun a b => a.1 ≠ b.1) :=
    (p1.pairwise_iff hsymm).mpr hd
  have hd2 : (sortFrags l2).Pairwise (fun a b => a.1 ≠ b.1) :=
    (p2.pairwise_iff hsymm).mpr ((hp.pairwise_iff hsymm).mp hd)
  have hlt1 : (sortFrags l1).Pairwise fragLt :=
    (hs1.and hd1).imp fun h => Nat.lt_of_le_of_ne h.1 h.2
  have hlt2 : (sortFrags l2).Pairwise fragLt :=
    (hs2.and hd2).imp fun h => Nat.lt_of_le_of_ne h.1 h.2
  haveI : IsAntisymm Frag fragLt := ⟨fun _ _ h h' => absurd (Nat.lt_trans h h') (Nat.lt_irrefl _)⟩
  exact List.eq_of_perm_of_sorted hperm hlt1 hlt2

/-- Stability of `orderedInsert` for the index comparator: the
elements carrying one fixed index keep their relative order. -/
theorem filter_orderedInsert (x : Frag) :
    ∀ (l : List Frag) (k : Nat),
      (List.orderedInsert fragLe x l).filter (fun a => a.1 == k)
        = if x.1 = k then x :: l.filter (fun a => a.1 == k)
          else l.filter (fun a => a.1 == k)
  | [], k => by
    by_cases hxk : x.1 = k
    · have hbx : (x.1 == k) = true := beq_iff_eq.mpr hxk
      simp [List.orderedInsert, List.filter, hxk, hbx]
    · have hbx : (x.1 == k) = false := beq_eq_false_iff_ne.mpr hxk
      simp [List.orderedInsert, List.filter, hxk, hbx]
  | y :: ys, k => by
    by_cases hr : fragLe x y
    · by_cases hxk : x.1 = k
      · have hbx : (x.1 == k) = true := beq_iff_eq.mpr hxk
        simp [List.orderedInsert, hr, List.filter, hxk, hbx]
      · have hbx : (x.1 == k) = false := beq_eq_false_iff_ne.mpr hxk
        simp [List.orderedInsert, hr, List.filter, hxk, hbx]
    · have hyx : y.1 < x.1 := Nat.lt_of_not_le hr
      by_cases hxk : x.1 = k
      · have hyk : ¬ (y.1 = k) := by omega
        have hby : (y.1 == k) = false := beq_eq_false_iff_ne.mpr hyk
        simp [List.orderedInsert, hr, List.filter, hby,
          filter_orderedInsert x ys k, hxk]
      · have hbx : (x.1 == k) = false := beq_eq_false_iff_ne.mpr hxk
        by_cases hyk : y.1 = k
        · have hby : (y.1 == k) = true := beq_iff_eq.mpr hyk
          simp [List.orderedInsert, hr, List.filter, hby,
            filter_orderedInsert x ys k, hxk]
        · have hby : (y.1 == k) = false := beq_eq_false_iff_ne.mpr hyk
          simp [List.orderedInsert, hr, List.filter, hby,
            filter_orderedInsert x ys k, hxk]

/-- Stability of the reassembly sort: equal-index fragments appear in
arrival order. -/
theorem filter_sortFrags :
    ∀ (l : List Frag) (k : Nat),
      (sortFrags l).filter (fun a => a.1 == k) = l.filter (fun a => a.1 == k)
  | [], _ => rfl
  | x :: xs, k => by
    have hrec : (sortFrags xs).filter (fun a => a.1 == k) = xs.filter (fun a => a.1 == k) :=
      filter_sortFrags xs k
    by_cases hxk : x.1 = k
    · have hbx : (x.1 == k) = true := beq_iff_eq.mpr hxk
      simp [sortFrags, List.insertionSort, filter_orderedInsert, hxk, List.filter, hbx]
      simpa [sortFrags] using hrec
    · have hbx : (x.1 == k) = false := beq_eq_false_iff_ne.mpr hxk
      simp [sortFrags, List.insertionSort, filter_orderedInsert, hxk, List.filter, hbx]
      simpa [sortFrags] using hrec

/-- The `EndOfFile` arm always removes the `file_id` entry from both
maps, whatever else it does. -/
theorem endOfFile_state (digest : List Nat → List Nat) (fs : FsOracle)
    (st : SlaveState) (fid : Nat) :
    (handle_request digest fs st (.endOfFile fid)).state
      = ⟨mapRemove st.file_pool fid, mapRemove st.file_metadata fid⟩ := by
  simp only [handle_request]
  cases st.file_metadata fid <;> cases st.file_pool fid <;>
    first
    | rfl
    | (dsimp only []; split_ifs <;> rfl)

/-! ## Claim theorems -/

/-- C1: finalizing an open transfer with `EndOfFile`, when the digest
of the index-sorted concatenation of the accumulated fragments differs
from the sha256 recorded at `FileMetadata` time, answers
`ChecksumNotMatched` and attempts no file creation or write; when the
digests agree, the bytes written are exactly the fragment payloads
sorted ascending by index and concatenated, with `CannotSaveFile`
exactly when file creation or writing fails. -/
theorem checksum_gate (digest : List Nat → List Nat) (fs : FsOracle) (st : SlaveState)
    (fid : Nat) (md : Metadata) (file : List Frag)
    (hm : st.file_metadata fid = some md) (hp : st.file_pool fid = some file) :
    (md.sha256 ≠ digest (reassemble file) →
      (handle_request digest fs st (.endOfFile fid)).response = .checksumNotMatched fid ∧
      (handle_request digest fs st (.endOfFile fid)).createAttempted = false ∧
      (handle_request digest fs st (.endOfFile fid)).written = none) ∧
    (md.sha256 = digest (reassemble file) →
      (fs.createOk = true → fs.writeOk = true →
        (handle_request digest fs st (.endOfFile fid)).response = .ok ∧
        (handle_request digest fs st (.endOfFile fid)).written = some (reassemble file)) ∧
      (fs.createOk = false ∨ fs.writeOk = false →
        (handle_request digest fs st (.endOfFile fid)).response = .cannotSaveFile fid ∧
        (handle_request digest fs st (.endOfFile fid)).written = none)) ∧
    (sortFrags file).Perm file ∧
    (sortFrags file).Sorted fragLe ∧
    reassemble file = ((sortFrags file).map Prod.snd).flatten := by
  rw [endOfFile_run digest fs st fid md file hm hp]
  refine ⟨?_, ?_, List.perm_insertionSort fragLe file,
    List.sorted_insertionSort fragLe file, rfl⟩
  · intro hne
    simp [hne]
  · intro heq
    constructor
    · intro hc hw
      simp [heq, hc, hw]
    · rintro (hc | hw)
      · simp [heq, hc]
      · cases hc : fs.createOk <;> simp [heq, hc, hw]

/-- C1 witness: a two-fragment transfer, arriving out of order, whose
recorded sha256 matches; the handler writes the index-sorted bytes. -/
theorem checksum_gate_witness :
    (handle_request (fun c => c) ⟨true, true⟩
        ⟨mapInsert emptyState.file_pool 0 [(1, [4]), (0, [3])],
         mapInsert emptyState.file_metadata 0 ⟨[], [3, 4]⟩⟩
        (.endOfFile 0)).response = .ok ∧
    (handle_request (fun c => c) ⟨true, true⟩
        ⟨mapInsert emptyState.file_pool 0 [(1, [4]), (0, [3])],
         mapInsert emptyState.file_metadata 0 ⟨[], [3, 4]⟩⟩
        (.endOfFile 0)).written = some [3, 4] := by
  have h := checksum_gate (fun c => c) ⟨true, true⟩
      ⟨mapInsert emptyState.file_pool 0 [(1, [4]), (0, [3])],
       mapInsert emptyState.file_metadata 0 ⟨[], [3, 4]⟩⟩
      0 ⟨[], [3, 4]⟩ [(1, [4]), (0, [3])] rfl rfl
  have h3 := (h.2.1 (by decide)).1 rfl rfl
  refine ⟨h3.1, ?_⟩
  rw [h3.2]
  decide

/-- C2: for fragments with pairwise-distinct indices, any permutation
of the arrival order between `FileMetadata` and `EndOfFile` yields the
same reassembled byte sequence, the same response and the same written
bytes: ordering is restored by index, not arrival time. -/
theorem fragment_reorder_invariant (digest : List Nat → List Nat) (fs : FsOracle)
    (st0 : SlaveState) (fid : Nat) (name sha : List Nat)
    (frags1 frags2 : List Frag)
    (hperm : frags1.Perm frags2)
    (hdist : frags1.Pairwise (fun a b => a.1 ≠ b.1)) :
    reassemble frags1 = reassemble frags2 ∧
    (handle_request digest fs
        (feedFrags digest fs fid
          (handle_request digest fs st0 (.fileMetadata fid name sha)).state frags1)
        (.endOfFile fid)).response
      = (handle_request digest fs
          (feedFrags digest fs fid
            (handle_request digest fs st0 (.fileMetadata fid name sha)).state frags2)
          (.endOfFile fid)).response ∧
    (handle_request digest fs
        (feedFrags digest fs fid
          (handle_request digest fs st0 (.fileMetadata fid name sha)).state frags1)
        (.endOfFile fid)).written
      = (handle_request digest fs
          (feedFrags digest fs fid
            (handle_request digest fs st0 (.fileMetadata fid name sha)).state frags2)
          (.endOfFile fid)).written := by
  have hre : reassemble frags1 = reassemble frags2 := by
    unfold reassemble
    rw [sortFrags_eq_of_perm frags1 frags2 hperm hdist]
  have hmeta0 :
      (handle_request digest fs st0 (.fileMetadata fid name sha)).state.file_metadata fid
        = some ⟨name, sha⟩ := mapInsert_self _ _ _
  have hpool0 :
      (handle_request digest fs st0 (.fileMetadata fid name sha)).state.file_pool fid
        = some [] := mapInsert_self _ _ _
  have hp1 := feedFrags_pool digest fs fid frags1 _ [] hpool0
  have hp2 := feedFrags_pool digest fs fid frags2 _ [] hpool0
  rw [List.nil_append] at hp1 hp2
  have hm1 : (feedFrags digest fs fid
      (handle_request digest fs st0 (.fileMetadata fid name sha)).state frags1).file_metadata fid
      = some ⟨name, sha⟩ := by
    rw [feedFrags_metadata]; exact hmeta0
  have hm2 : (feedFrags digest fs fid
      (handle_request digest fs st0 (.fileMetadata fid name sha)).state frags2).file_metadata fid
      = some ⟨name, sha⟩ := by
    rw [feedFrags_metadata]; exact hmeta0
  rw [endOfFile_run digest fs _ fid ⟨name, sha⟩ frags1 hm1 hp1,
    endOfFile_run digest fs _ fid ⟨name, sha⟩ frags2 hm2 hp2]
  exact ⟨hre, by simp [hre], by simp [hre]⟩

/-- C2 witness: two fragments arriving in swapped order produce the
same response and the same written bytes. -/
theorem fragment_reorder_invariant_witness :
    reassemble [(0, [1]), (1, [2])] = reassemble [(1, [2]), (0, [1])] ∧
    (handle_request (fun c => c) ⟨true, true⟩
        (feedFrags (fun c => c) ⟨true, true⟩ 3
          (handle_request (fun c => c) ⟨true, true⟩ emptyState
            (.fileMetadata 3 [] [1, 2])).state [(0, [1]), (1, [2])])
        (.endOfFile 3)).response
      = (handle_request (fun c => c) ⟨true, true⟩
          (feedFrags (fun c => c) ⟨true, true⟩ 3
            (handle_request (fun c => c) ⟨true, true⟩ emptyState
              (.fileMetadata 3 [] [1, 2])).state [(1, [2]), (0, [1])])
          (.endOfFile 3)).response ∧
    (handle_request (fun c => c) ⟨true, true⟩
        (feedFrags (fun c => c) ⟨true, true⟩ 3
          (handle_request (fun c => c) ⟨true, true⟩ emptyState
            (.fileMetadata 3 [] [1, 2])).state [(0, [1]), (1, [2])])
        (.endOfFile 3)).written
      = (handle_request (fun c => c) ⟨true, true⟩
          (feedFrags (fun c => c) ⟨true, true⟩ 3
            (handle_request (fun c => c) ⟨true, true⟩ emptyState
              (.fileMetadata 3 [] [1, 2])).state [(1, [2]), (0, [1])])
          (.endOfFile 3)).written :=
  fragment_reorder_invariant (fun c => c) ⟨true, true⟩ emptyState 3 [] [1, 2]
    [(0, [1]), (1, [2])] [(1, [2]), (0, [1])] (by decide) (by decide)

/-- C6 counterexample: `DropFile` does not discard every component of
the transfer state — the `file_metadata` entry survives (slave.rs
lines 134-137 remove only from `file_pool`). -/
theorem dropFile_discards_all_cex :
    (handle_request (fun _ => []) ⟨true, true⟩
        ⟨mapInsert emptyState.file_pool 5 [(0, [1])],
         mapInsert emptyState.file_metadata 5 ⟨[1], [2]⟩⟩
        (.dropFile 5)).state.file_metadata 5 = some ⟨[1], [2]⟩ := by
  decide

/-- C6 amended: handling `DropFile` discards the accumulated fragments
for that `file_id` but retains the recorded metadata entry; it is
idempotent (no error when no state exists), leaves other ids' pools
unchanged, and always responds `Ok`. -/
theorem dropFile_amended (digest : List Nat → List Nat) (fs : FsOracle)
    (st : SlaveState) (fid : Nat) :
    (handle_request digest fs st (.dropFile fid)).response = .ok ∧
    (handle_request digest fs st (.dropFile fid)).state.file_pool fid = none ∧
    (handle_request digest fs st (.dropFile fid)).state.file_metadata = st.file_metadata ∧
    (∀ q, q ≠ fid →
      (handle_request digest fs st (.dropFile fid)).state.file_pool q = st.file_pool q) ∧
    (handle_request digest fs st (.dropFile fid)).written = none :=
  ⟨rfl, mapRemove_self _ _, rfl, fun _ hq => mapRemove_other _ _ _ hq, rfl⟩

/-- C6 amended witness: dropping an id with no state responds `Ok` and
leaves another id's (absent) pool entry absent. -/
theorem dropFile_amended_witness :
    (handle_request (fun _ => []) ⟨true, true⟩ emptyState (.dropFile 0)).response = .ok ∧
    (handle_request (fun _ => []) ⟨true, true⟩ emptyState (.dropFile 0)).state.file_pool 1
      = none := by
  have h := dropFile_amended (fun _ => []) ⟨true, true⟩ emptyState 0
  refine ⟨h.1, ?_⟩
  rw [h.2.2.2.1 1 (by decide)]
  rfl

/-- C7: a `FileFragment` whose id has no pool entry is dropped with
`FileIdNotFound` and the state is fully unchanged; an `EndOfFile`
whose id has no open transfer answers `FileIdNotFound`, writes
nothing, attempts no file creation, and leaves every other id's state
unchanged. -/
theorem unknown_id_handling (digest : List Nat → List Nat) (fs : FsOracle)
    (st : SlaveState) (fid idx : Nat) (data : List Nat) :
    (st.file_pool fid = none →
      handle_request digest fs st (.fileFragment fid idx data)
        = ⟨st, .fileIdNotFound fid, false, none⟩) ∧
    (st.file_metadata fid = none ∨ st.file_pool fid = none →
      (handle_request digest fs st (.endOfFile fid)).response = .fileIdNotFound fid ∧
      (handle_request digest fs st (.endOfFile fid)).createAttempted = false ∧
      (handle_request digest fs st (.endOfFile fid)).written = none ∧
      (∀ q, q ≠ fid →
        (handle_request digest fs st (.endOfFile fid)).state.file_pool q = st.file_pool q ∧
        (handle_request digest fs st (.endOfFile fid)).state.file_metadata q
          = st.file_metadata q)) := by
  constructor
  · intro h
    simp only [handle_request, h]
  · intro h
    have hq : ∀ q, q ≠ fid →
        (handle_request digest fs st (.endOfFile fid)).state.file_pool q = st.file_pool q ∧
        (handle_request digest fs st (.endOfFile fid)).state.file_metadata q
          = st.file_metadata q := by
      intro q hne
      rw [endOfFile_state]
      exact ⟨mapRemove_other _ _ _ hne, mapRemove_other _ _ _ hne⟩
    rcases h with h | h
    · refine ⟨?_, ?_, ?_, hq⟩ <;> simp only [handle_request, h]
    · cases hm : st.file_metadata fid <;>
        (refine ⟨?_, ?_, ?_, hq⟩ <;> simp only [handle_request, h, hm])

/-- C7 witness: a fragment and an `EndOfFile` for an unknown id on the
empty state. -/
theorem unknown_id_handling_witness :
    handle_request (fun c => c) ⟨true, true⟩ emptyState (.fileFragment 9 0 [1])
      = ⟨emptyState, .fileIdNotFound 9, false, none⟩ ∧
    (handle_request (fun c => c) ⟨true, true⟩ emptyState (.endOfFile 9)).response
      = .fileIdNotFound 9 := by
  have h := unknown_id_handling (fun c => c) ⟨true, true⟩ emptyState 9 0 [1]
  exact ⟨h.1 rfl, (h.2 (Or.inl rfl)).1⟩

/-- C10: accepted fragments sharing an index are all retained (each
push appends), the sort by index is stable (fragments with one fixed
index appear in arrival order), and the reassembled length is the sum
of all accepted fragment lengths. -/
theorem duplicate_index_retention (digest : List Nat → List Nat) (fs : FsOracle)
    (st : SlaveState) (fid idx : Nat) (data : List Nat) (file : List Frag)
    (h : st.file_pool fid = some file) :
    (handle_request digest fs st (.fileFragment fid idx data)).state.file_pool fid
      = some (file ++ [(idx, data)]) ∧
    (∀ (l : List Frag) (k : Nat),
      (sortFrags l).filter (fun a => a.1 == k) = l.filter (fun a => a.1 == k)) ∧
    (∀ l : List Frag, (reassemble l).length = (l.map (fun a => a.2.length)).sum) := by
  refine ⟨?_, filter_sortFrags, ?_⟩
  · simp only [handle_request, h]
    exact mapInsert_self _ _ _
  · intro l
    unfold reassemble
    rw [List.length_flatten, List.map_map]
    have hp := (List.perm_insertionSort fragLe l).map (fun a : Frag => a.2.length)
    simpa [sortFrags, Function.comp] using hp.sum_eq

/-- C10 witness: a duplicate-index push is appended, stability on a
concrete list, and the reassembled length equals the sum of payload
lengths. -/
theorem duplicate_index_retention_witness :
    (handle_request (fun c => c) ⟨true, true⟩
        ⟨mapInsert emptyState.file_pool 0 [(2, [9])], emptyState.file_metadata⟩
        (.fileFragment 0 2 [7])).state.file_pool 0 = some [(2, [9]), (2, [7])] ∧
    (sortFrags [(1, [5]), (0, [6]), (1, [7])]).filter (fun a => a.1 == 1)
      = [(1, [5]), (1, [7])] ∧
    (reassemble [(1, [5]), (0, [6]), (1, [7])]).length = 3 := by
  have h := duplicate_index_retention (fun c => c) ⟨true, true⟩
      ⟨mapInsert emptyState.file_pool 0 [(2, [9])], emptyState.file_metadata⟩
      0 2 [7] [(2, [9])] rfl
  refine ⟨by simpa using h.1, ?_, ?_⟩
  · rw [h.2.1 [(1, [5]), (0, [6]), (1, [7])] 1]
    decide
  · rw [h.2.2 [(1, [5]), (0, [6]), (1, [7])]]
    decide

/-! ## Codec lemmas -/

theorem readU32le_append (n : Nat) (rest : List Nat) (h : n < 4294967296) :
    readU32le (u32le n ++ rest) = some (n, rest) := by
  simp only [u32le, List.cons_append, List.nil_append, readU32le,
    Option.some.injEq, Prod.mk.injEq]
  exact ⟨by omega, trivial⟩

theorem readU64le_append (n : Nat) (rest : List Nat) (h : n < 18446744073709551616) :
    readU64le (u64le n ++ rest) = some (n, rest) := by
  simp only [u64le, List.cons_append, List.nil_append, readU64le,
    Option.some.injEq, Prod.mk.injEq]
  exact ⟨by omega, trivial⟩

theorem readBytes_append (data rest : List Nat) :
    readBytes data.length (data ++ rest) = some (data, rest) := by
  unfold readBytes
  rw [if_pos (by simp), List.take_left, List.drop_left]

theorem readBytes_self (l : List Nat) : readBytes l.length l = some (l, []) := by
  unfold readBytes
  rw [if_pos (Nat.le_refl _)]
  simp

/-- Round trip of the bincode layer: deserializing a serialized
request recovers it (for requests whose fields are in u8/u32/u64
range, as they are in the Rust program). -/
theorem deserialize_serialize (m : MasterRequest) (hwf : WFRequest m) :
    deserializeRequest (serializeRequest m) = some m := by
  cases m with
  | ping => rfl
  | fileFragment fid idx data =>
    obtain ⟨hfid, hidx, hlen, _⟩ := hwf
    simp only [serializeRequest, List.append_assoc]
    unfold deserializeRequest
    rw [readU32le_append 1 _ (by norm_num)]
    simp [readU8, readU32le_append idx _ hidx, readU64le_append data.length _ hlen,
      readBytes_self]
  | fileMetadata fid name sha =>
    obtain ⟨hfid, hnlen, hslen, _, _⟩ := hwf
    simp only [serializeRequest, List.append_assoc]
    unfold deserializeRequest
    rw [readU32le_append 2 _ (by norm_num)]
    simp [readU8, readU64le_append name.length _ hnlen, readBytes_append,
      readU64le_append sha.length _ hslen, readBytes_self]
  | endOfFile fid =>
    simp only [serializeRequest, List.append_assoc]
    unfold deserializeRequest
    rw [readU32le_append 3 _ (by norm_num)]
    simp [readU8]
  | dropFile fid =>
    simp only [serializeRequest, List.append_assoc]
    unfold deserializeRequest
    rw [readU32le_append 4 _ (by norm_num)]
    simp [readU8]

/-- Decoding a full frame followed by trailing bytes consumes exactly
the frame and hands the trailing bytes back. -/
theorem decode_frame (payload trailing : List Nat) (h2 : payload.length ≤ 1498) :
    decodeRequest ((u16be (2 + payload.length) ++ payload) ++ trailing)
      = match deserializeRequest payload with
        | none => .error .deserializeFailed
        | some m => .ok (some (m, trailing)) := by
  have hsrc : (u16be (2 + payload.length) ++ payload) ++ trailing
      = ((2 + payload.length) / 256 % 256) :: ((2 + payload.length) % 256)
        :: (payload ++ trailing) := by
    simp [u16be]
  rw [hsrc]
  have htot : u8_array_to_u16 ((2 + payload.length) / 256 % 256) ((2 + payload.length) % 256)
      = 2 + payload.length := by
    unfold u8_array_to_u16
    omega
  have hplus : 2 + payload.length = payload.length + 1 + 1 := by omega
  simp only [decodeRequest]
  rw [htot, if_neg (by simp; omega)]
  rw [hplus]
  simp only [List.take_succ_cons, List.drop_succ_cons, List.take_left, List.drop_left,
    List.drop_zero]

/-- Decoding any strict prefix of a frame (fewer bytes than the
declared total length, including fewer than 2) reports "need more". -/
theorem decode_short (payload : List Nat) (h2 : payload.length ≤ 1498) :
    ∀ k, k < 2 + payload.length →
      decodeRequest ((u16be (2 + payload.length) ++ payload).take k) = .ok none := by
  intro k hk
  match k with
  | 0 => rfl
  | 1 => rfl
  | (j + 2) =>
    have hsrc : (u16be (2 + payload.length) ++ payload).take (j + 2)
        = ((2 + payload.length) / 256 % 256) :: ((2 + payload.length) % 256)
          :: payload.take j := by
      simp [u16be]
    rw [hsrc]
    have htot : u8_array_to_u16 ((2 + payload.length) / 256 % 256) ((2 + payload.length) % 256)
        = 2 + payload.length := by
      unfold u8_array_to_u16
      omega
    simp only [decodeRequest]
    rw [htot, if_pos (by simp [List.length_take]; omega)]

/-- Serialized size of a `FileFragment`: 4 (variant tag) + 1
(`file_id`) + 4 (`index`) + 8 (data length) + the data itself. -/
theorem length_serialize_fragment (fid idx : Nat) (data : List Nat) :
    (serializeRequest (.fileFragment fid idx data)).length = 17 + data.length := by
  simp [serializeRequest, u32le, u64le]
  omega

/-- C3: for every well-formed request whose serialized payload is at
most 1498 bytes, encode produces a length-prefixed frame, decoding the
frame plus any trailing bytes returns the original message and leaves
exactly the trailing bytes, and decoding any strict prefix of the
frame (including fewer than 2 bytes) reports "need more data". -/
theorem frame_roundtrip (m : MasterRequest) (trailing : List Nat)
    (hwf : WFRequest m) (hlen : (serializeRequest m).length ≤ 1498) :
    encodeRequest m []
      = .ok (u16be (2 + (serializeRequest m).length) ++ serializeRequest m) ∧
    (u16be (2 + (serializeRequest m).length) ++ serializeRequest m).length
      = 2 + (serializeRequest m).length ∧
    decodeRequest ((u16be (2 + (serializeRequest m).length) ++ serializeRequest m) ++ trailing)
      = .ok (some (m, trailing)) ∧
    ∀ k, k < 2 + (serializeRequest m).length →
      decodeRequest ((u16be (2 + (serializeRequest m).length) ++ serializeRequest m).take k)
        = .ok none := by
  refine ⟨?_, by simp [u16be]; omega, ?_, decode_short (serializeRequest m) hlen⟩
  · unfold encodeRequest
    rw [if_neg (by simp [MAX_CONTENT_SIZE]; omega)]
    simp
  · rw [decode_frame (serializeRequest m) trailing hlen,
      deserialize_serialize m hwf]

/-- C3 witness: a concrete fragment frame round-trips with trailing
bytes preserved, and its 1-byte prefix decodes to "need more". -/
theorem frame_roundtrip_witness :
    encodeRequest (.fileFragment 1 0 [9]) []
      = .ok (u16be (2 + (serializeRequest (.fileFragment 1 0 [9])).length)
          ++ serializeRequest (.fileFragment 1 0 [9])) ∧
    decodeRequest ((u16be (2 + (serializeRequest (.fileFragment 1 0 [9])).length)
          ++ serializeRequest (.fileFragment 1 0 [9])) ++ [7, 7])
      = .ok (some (.fileFragment 1 0 [9], [7, 7])) ∧
    decodeRequest ((u16be (2 + (serializeRequest (.fileFragment 1 0 [9])).length)
          ++ serializeRequest (.fileFragment 1 0 [9])).take 1) = .ok none := by
  have h := frame_roundtrip (.fileFragment 1 0 [9]) [7, 7]
      ⟨by decide, by decide, by decide, by decide⟩ (by decide)
  exact ⟨h.1, h.2.2.1, h.2.2.2 1 (by decide)⟩

/-- C4: any message serializing above 1498 bytes is rejected with
`DataTooLarge` before anything is appended to the output buffer; a
`FileFragment` serializes to 17 + data.len() bytes, so data above 1481
bytes is rejected while data.len() == 1477 encodes successfully. -/
theorem oversize_rejection (m : MasterRequest) (dst : List Nat)
    (fid idx : Nat) (data : List Nat) :
    ((serializeRequest m).length > 1498 → encodeRequest m dst = .error .dataTooLarge) ∧
    (serializeRequest (.fileFragment fid idx data)).length = 17 + data.length ∧
    (1481 < data.length →
      encodeRequest (.fileFragment fid idx data) dst = .error .dataTooLarge) ∧
    (data.length = 1477 →
      encodeRequest (.fileFragment fid idx data) dst
        = .ok (dst ++ u16be 1496 ++ serializeRequest (.fileFragment fid idx data))) := by
  refine ⟨?_, length_serialize_fragment fid idx data, ?_, ?_⟩
  · intro h
    unfold encodeRequest
    rw [if_pos (by simp [MAX_CONTENT_SIZE]; omega)]
  · intro h
    unfold encodeRequest
    rw [if_pos ?hc]
    case hc =>
      rw [length_serialize_fragment fid idx data]
      simp [MAX_CONTENT_SIZE]
      omega
  · intro h
    unfold encodeRequest
    rw [if_neg (by rw [length_serialize_fragment fid idx data]; simp [MAX_CONTENT_SIZE]; omega)]
    rw [length_serialize_fragment fid idx data, h]

/-- C4 witness: a 1482-byte fragment payload is rejected with
`DataTooLarge`; a 1477-byte payload encodes successfully. -/
theorem oversize_rejection_witness :
    encodeRequest (.fileFragment 0 0 (List.replicate 1482 7)) [] = .error .dataTooLarge ∧
    encodeRequest (.fileFragment 0 0 (List.replicate 1477 7)) []
      = .ok ([] ++ u16be 1496 ++ serializeRequest (.fileFragment 0 0 (List.replicate 1477 7))) := by
  constructor
  · exact (oversize_rejection (.fileFragment 0 0 (List.replicate 1482 7)) [] 0 0
      (List.replicate 1482 7)).2.2.1 (by simp only [List.length_replicate]; omega)
  · exact (oversize_rejection .ping [] 0 0
      (List.replicate 1477 7)).2.2.2 (by simp only [List.length_replicate])

/-! ## Sender-loop lemmas -/

theorem take_add_split {α : Type} :
    ∀ (l : List α) (m n : Nat), l.take (m + n) = l.take m ++ (l.drop m).take n
  | _, 0, _ => by simp
  | [], _ + 1, _ => by simp
  | a :: l, m + 1, n => by
    have h : m + 1 + n = (m + n) + 1 := by omega
    rw [h]
    simp [List.take_succ_cons, take_add_split l m n]

theorem take_length_take {α : Type} (l : List α) (k : Nat) :
    l.take ((l.take k).length) = l.take k := by
  rw [List.length_take]
  rcases Nat.le_total k l.length with h | h
  · rw [Nat.min_eq_left h]
  · rw [Nat.min_eq_right h, List.take_length, List.take_of_length_le h]

/-- One unfolding of the send loop when the loop guard holds and the
polled status resolves to `Running`. -/
theorem masterLoop_succ_running (fid : Nat) (file : List Nat) (poll : Nat → PollRes)
    (plan : Nat → Nat) (fuel rb idx t : Nat) (hlt : rb < file.length)
    (hpoll : pollUpdate (poll t) .running = some .running) :
    masterLoop fid file poll plan (fuel + 1) rb idx .running t
      = if ((file.drop rb).take (min (plan t) MAX_FILE_FARGMENT_SIZE)).length = 0
        then some [.endOfFile fid]
        else Option.map
          (fun rest => .fileFragment fid idx
            ((file.drop rb).take (min (plan t) MAX_FILE_FARGMENT_SIZE)) :: rest)
          (masterLoop fid file poll plan fuel
            (rb + ((file.drop rb).take (min (plan t) MAX_FILE_FARGMENT_SIZE)).length)
            (idx + 1) .running (t + 1)) := by
  simp only [masterLoop]
  rw [if_pos hlt, hpoll]

/-- One unfolding of the chunk list when the loop guard holds. -/
theorem chunksFrom_succ (file : List Nat) (plan : Nat → Nat) (fuel rb t : Nat)
    (hlt : rb < file.length) :
    chunksFrom file plan (fuel + 1) rb t
      = if ((file.drop rb).take (min (plan t) MAX_FILE_FARGMENT_SIZE)).length = 0
        then []
        else (file.drop rb).take (min (plan t) MAX_FILE_FARGMENT_SIZE)
          :: chunksFrom file plan fuel
            (rb + ((file.drop rb).take (min (plan t) MAX_FILE_FARGMENT_SIZE)).length)
            (t + 1) := by
  simp only [chunksFrom]
  rw [if_pos hlt]

/-- With the control channel silent (`try_recv` always `Empty`) and
enough fuel, the send loop emits exactly the fragments of the chunk
list followed by one `EndOfFile`. -/
theorem masterLoop_run_empty (fid : Nat) (file : List Nat) (plan : Nat → Nat) :
    ∀ (fuel rb idx t : Nat), rb ≤ file.length → file.length + 1 - rb ≤ fuel →
      masterLoop fid file (fun _ => .empty) plan fuel rb idx .running t
        = some (fragsOf fid idx (chunksFrom file plan fuel rb t) ++ [.endOfFile fid])
  | 0, rb, _, _, hrb, hfuel => by omega
  | fuel + 1, rb, idx, t, hrb, hfuel => by
    by_cases hlt : rb < file.length
    · rw [masterLoop_succ_running fid file (fun _ => PollRes.empty) plan fuel rb idx t hlt rfl,
        chunksFrom_succ file plan fuel rb t hlt]
      by_cases hc : ((file.drop rb).take (min (plan t) MAX_FILE_FARGMENT_SIZE)).length = 0
      · rw [if_pos hc, if_pos hc]
        rfl
      · have hclen : ((file.drop rb).take (min (plan t) MAX_FILE_FARGMENT_SIZE)).length
            ≤ file.length - rb := by
          rw [List.length_take, List.length_drop]
          omega
        have hrec := masterLoop_run_empty fid file plan fuel
          (rb + ((file.drop rb).take (min (plan t) MAX_FILE_FARGMENT_SIZE)).length)
          (idx + 1) (t + 1) (by omega) (by omega)
        rw [if_neg hc, if_neg hc, hrec]
        rfl
    · simp only [masterLoop, chunksFrom]
      rw [if_neg hlt, if_neg hlt]
      rfl

/-- Every chunk the send loop reads is nonempty and at most 1477
bytes. -/
theorem chunksFrom_bounds (file : List Nat) (plan : Nat → Nat) :
    ∀ (fuel rb t : Nat), ∀ c ∈ chunksFrom file plan fuel rb t,
      0 < c.length ∧ c.length ≤ MAX_FILE_FARGMENT_SIZE
  | 0, rb, t => by simp [chunksFrom]
  | fuel + 1, rb, t => by
    by_cases hlt : rb < file.length
    · rw [chunksFrom_succ file plan fuel rb t hlt]
      by_cases hc : ((file.drop rb).take (min (plan t) MAX_FILE_FARGMENT_SIZE)).length = 0
      · rw [if_pos hc]
        simp
      · rw [if_neg hc]
        intro c hm
        rcases List.mem_cons.mp hm with rfl | hmem
        · refine ⟨Nat.pos_of_ne_zero hc, ?_⟩
          rw [List.length_take]
          omega
        · exact chunksFrom_bounds file plan fuel
            (rb + ((file.drop rb).take (min (plan t) MAX_FILE_FARGMENT_SIZE)).length)
            (t + 1) c hmem
    · simp only [chunksFrom]
      rw [if_neg hlt]
      simp

/-- The chunks are consecutive slices of the file starting at `rb`:
their concatenation is an initial segment of what remains. -/
theorem chunksFrom_flatten (file : List Nat) (plan : Nat → Nat) :
    ∀ (fuel rb t : Nat),
      (chunksFrom file plan fuel rb t).flatten
        = (file.drop rb).take (chunksFrom file plan fuel rb t).flatten.length
  | 0, rb, t => by simp [chunksFrom]
  | fuel + 1, rb, t => by
    by_cases hlt : rb < file.length
    · rw [chunksFrom_succ file plan fuel rb t hlt]
      by_cases hc : ((file.drop rb).take (min (plan t) MAX_FILE_FARGMENT_SIZE)).length = 0
      · rw [if_pos hc]
        simp
      · rw [if_neg hc]
        have ih := chunksFrom_flatten file plan fuel
          (rb + ((file.drop rb).take (min (plan t) MAX_FILE_FARGMENT_SIZE)).length) (t + 1)
        rw [List.flatten_cons, List.length_append, take_add_split, take_length_take]
        congr 1
        rw [List.drop_drop]
        exact ih
    · simp only [chunksFrom]
      rw [if_neg hlt]
      simp

/-- The fragments of a chunk list contain no `EndOfFile`. -/
theorem count_endOfFile_fragsOf (fid : Nat) :
    ∀ (idx : Nat) (cs : List (List Nat)),
      (fragsOf fid idx cs).count (MasterRequest.endOfFile fid) = 0
  | _, [] => rfl
  | idx, c :: cs => by
    simp [fragsOf, List.count_cons, count_endOfFile_fragsOf fid (idx + 1) cs]

/-- C5: with the controller silent, the sender reads the file in
nonempty chunks of at most 1477 bytes whose concatenation is an
initial segment of the file taken in order, wraps each chunk in a
`FileFragment` with a zero-based index incrementing by one (a
zero-byte read ends the loop even if the declared length is not
consumed), and ends the completed transfer with exactly one
`EndOfFile` as the last message after `FileMetadata` and the
fragments. -/
theorem send_trace_shape (file : List Nat) (plan : Nat → Nat) (fid : Nat)
    (name sha : List Nat) (fuel : Nat) (hfuel : file.length + 1 ≤ fuel) :
    sendAFileTrace fid name sha file (fun _ => .empty) plan fuel
      = some (.fileMetadata fid name sha
          :: fragsOf fid 0 (chunksFrom file plan fuel 0 0) ++ [.endOfFile fid]) ∧
    (∀ c ∈ chunksFrom file plan fuel 0 0,
      0 < c.length ∧ c.length ≤ MAX_FILE_FARGMENT_SIZE) ∧
    (chunksFrom file plan fuel 0 0).flatten
      = file.take (chunksFrom file plan fuel 0 0).flatten.length ∧
    (fragsOf fid 0 (chunksFrom file plan fuel 0 0)
        ++ [MasterRequest.endOfFile fid]).count (MasterRequest.endOfFile fid) = 1 := by
  refine ⟨?_, chunksFrom_bounds file plan fuel 0 0, ?_, ?_⟩
  · unfold sendAFileTrace
    rw [masterLoop_run_empty fid file plan fuel 0 0 0 (Nat.zero_le _) (by omega)]
    rfl
  · have h := chunksFrom_flatten file plan fuel 0 0
    simpa using h
  · rw [List.count_append, count_endOfFile_fragsOf]
    simp

/-- C5 witness: a 3-byte file read 2 bytes at a time. -/
theorem send_trace_shape_witness :
    sendAFileTrace 1 [] [] [1, 2, 3] (fun _ => .empty) (fun _ => 2) 4
      = some (.fileMetadata 1 [] []
          :: fragsOf 1 0 (chunksFrom [1, 2, 3] (fun _ => 2) 4 0 0) ++ [.endOfFile 1]) ∧
    (∀ c ∈ chunksFrom [1, 2, 3] (fun _ => 2) 4 0 0,
      0 < c.length ∧ c.length ≤ MAX_FILE_FARGMENT_SIZE) ∧
    (chunksFrom [1, 2, 3] (fun _ => 2) 4 0 0).flatten
      = List.take (chunksFrom [1, 2, 3] (fun _ => 2) 4 0 0).flatten.length [1, 2, 3] ∧
    (fragsOf 1 0 (chunksFrom [1, 2, 3] (fun _ => 2) 4 0 0)
        ++ [MasterRequest.endOfFile 1]).count (MasterRequest.endOfFile 1) = 1 :=
  send_trace_shape [1, 2, 3] (fun _ => 2) 1 [] [] 4 (by decide)

/-- C8: a disconnected control channel or an `Aborted` status makes
the loop send exactly one `DropFile` — and nothing after it, in
particular no `EndOfFile` — and terminate with a non-error result;
while the effective status is `Paused` and no new status arrives, the
loop emits nothing and neither the read cursor nor the fragment index
advances. -/
theorem control_abort_pause (fid : Nat) (file : List Nat) (poll : Nat → PollRes)
    (plan : Nat → Nat) (fuel rb idx t k : Nat) (status : TaskStatus) :
    (poll t = .disconnected → rb < file.length →
      masterLoop fid file poll plan (fuel + 1) rb idx status t = some [.dropFile fid]) ∧
    (pollUpdate (poll t) status = some .aborted → rb < file.length →
      masterLoop fid file poll plan (fuel + 1) rb idx status t = some [.dropFile fid]) ∧
    ((∀ j, j < k → poll (t + j) = .empty) → rb < file.length →
      masterLoop fid file poll plan (k + fuel) rb idx .paused t
        = masterLoop fid file poll plan fuel rb idx .paused (t + k)) := by
  refine ⟨?_, ?_, ?_⟩
  · intro hd hlt
    simp [masterLoop, hlt, hd, pollUpdate]
  · intro ha hlt
    simp [masterLoop, hlt, ha]
  · induction k generalizing t with
    | zero => intro _ _; simp
    | succ k ih =>
      intro hp hlt
      have h0 : poll t = .empty := by
        have := hp 0 (by omega)
        simpa using this
      have step : masterLoop fid file poll plan (k + fuel + 1) rb idx .paused t
          = masterLoop fid file poll plan (k + fuel) rb idx .paused (t + 1) := by
        simp [masterLoop, hlt, h0, pollUpdate]
      have harg : k + 1 + fuel = k + fuel + 1 := by omega
      rw [harg, step]
      have hrest := ih (t + 1) (fun j hj => by
        have h2 := hp (j + 1) (by omega)
        have he : t + 1 + j = t + (j + 1) := by omega
        rw [he]
        exact h2) hlt
      rw [hrest]
      congr 1
      omega

/-- C8 witness: disconnect and abort each produce the single-message
`DropFile` trace; two silent paused iterations change nothing but the
iteration counter. -/
theorem control_abort_pause_witness :
    masterLoop 1 [1, 2, 3] (fun _ => .disconnected) (fun _ => 2) 5 0 0 .running 0
      = some [.dropFile 1] ∧
    masterLoop 1 [1, 2, 3] (fun _ => .got .aborted) (fun _ => 2) 5 0 0 .running 0
      = some [.dropFile 1] ∧
    masterLoop 1 [1, 2, 3] (fun _ => .empty) (fun _ => 2) (2 + 3) 0 0 .paused 0
      = masterLoop 1 [1, 2, 3] (fun _ => .empty) (fun _ => 2) 3 0 0 .paused (0 + 2) := by
  refine ⟨?_, ?_, ?_⟩
  · exact (control_abort_pause 1 [1, 2, 3] (fun _ => .disconnected) (fun _ => 2)
      4 0 0 0 2 .running).1 rfl (by decide)
  · exact (control_abort_pause 1 [1, 2, 3] (fun _ => .got .aborted) (fun _ => 2)
      4 0 0 0 2 .running).2.1 rfl (by decide)
  · exact (control_abort_pause 1 [1, 2, 3] (fun _ => .empty) (fun _ => 2)
      3 0 0 0 2 .paused).2.2 (fun _ _ => rfl) (by decide)

end Portal
